import Mathlib

/-!
Shallow embedding of the in-memory consensus store of
`go-opera-substate` (`src/poset/inmem_store.go` plus the `Store`
interface in `src/poset/store.go`).

Go maps are modelled as association lists with unique keys (insertion
replaces every previous binding of the key), `int64` counters as `Int`
(no claim depends on 64-bit wraparound), and Go's `(value, error)`
returns as `Except StoreErr value`.

Collaborator types that the store uses but whose sources are in other
packages of the project (`common.RollingIndex`, `ParticipantEventsCache`,
`Root`, the peers set, event/round/block/frame record types, the LRU
cache from `hashicorp/golang-lru`, and the structured store errors) are
modelled from the specification and are each marked as such in their
doc comment.
-/

namespace Lachesis

/-- Association-list lookup; the first binding of the key wins, which
matches a Go map because insertion removes every older binding. -/
def alookup {κ ν : Type} [DecidableEq κ] : List (κ × ν) → κ → Option ν
  | [], _ => none
  | e :: t, k => if e.1 = k then some e.2 else alookup t k

/-- Remove every binding of a key from an association list. -/
def aerase {κ ν : Type} [DecidableEq κ] : List (κ × ν) → κ → List (κ × ν)
  | [], _ => []
  | e :: t, k => if e.1 = k then aerase t k else e :: aerase t k

/-- Go-map style insertion: any previous binding of the key is removed,
so keys stay unique. -/
def ainsert {κ ν : Type} [DecidableEq κ] (l : List (κ × ν)) (k : κ) (v : ν) :
    List (κ × ν) :=
  (k, v) :: aerase l k

/-- Modelled from the spec: the error-taxonomy collaborator's kinds
(§6, §7): KeyNotFound, NoRoot, Empty, TooLow, SkippedIndex. -/
inductive StoreErrKind : Type
  | keyNotFound
  | noRoot
  | empty
  | tooLow
  | skippedIndex
  deriving DecidableEq

/-- Modelled from the spec: a structured store error carrying the
originating sub-store tag, the kind, and the stringified key. -/
structure StoreErr : Type where
  tag : String
  kind : StoreErrKind
  key : String
  deriving DecidableEq

/-- The kind predicate `cm.Is(err, kind)`. -/
def errIs (e : StoreErr) (k : StoreErrKind) : Bool := e.kind = k

/-- Modelled from the spec: `EventHash` is a fixed-width identifier
supporting equality and hashing; modelled as a natural number. -/
abbrev EventHash : Type := Nat

/-- Modelled from the spec: an event carries a content hash, its
creator's public key, its index within the creator, and an opaque
payload. Accessors `Hash()`, `GetCreator()`, `Index()` are the fields. -/
structure Event : Type where
  hash : EventHash
  creator : String
  index : Int
  payload : Nat
  deriving DecidableEq

/-- Modelled from the spec: a peer is identified by a public key
(hex string) and a numeric id. -/
structure Peer : Type where
  pubKeyHex : String
  id : Int
  deriving DecidableEq

/-- Modelled from the spec: the `SelfParent` descriptor of a root,
holding a hash and the index before the participant's first event. -/
structure RootEvent : Type where
  hash : EventHash
  index : Int
  deriving DecidableEq

/-- Modelled from the spec: a per-participant base anchor. -/
structure Root : Type where
  selfParent : RootEvent
  deriving DecidableEq

/-- Modelled from the spec: a synthetic base root for a newly
registered participant: self-parent index −1 and an ID-derived hash. -/
def NewBaseRoot (id : Int) : Root :=
  { selfParent := { hash := id.toNat, index := -1 } }

/-- Modelled from the spec: a created round carries a set of clotho
hashes and the list of events in the round. -/
structure RoundCreated : Type where
  clothos : List EventHash
  events : List EventHash
  deriving DecidableEq

/-- Accessor `RoundCreated.Clotho()`. -/
def RoundCreated.Clotho (r : RoundCreated) : List EventHash := r.clothos

/-- Modelled from the spec: a received round carries opaque
consensus-ordering information. -/
structure RoundReceived : Type where
  payload : Nat
  deriving DecidableEq

/-- Modelled from the spec: a block is indexed by a block index and is
otherwise opaque to the store. -/
structure Block : Type where
  index : Int
  payload : Nat
  deriving DecidableEq

/-- Accessor `Block.Index()`. -/
def Block.Index (b : Block) : Int := b.index

/-- Modelled from the spec: a frame is indexed by the round it
corresponds to and is otherwise opaque to the store. -/
structure Frame : Type where
  round : Int
  payload : Nat
  deriving DecidableEq

/-- Modelled from the spec: a bounded LRU cache (§4.2,
`hashicorp/golang-lru`): key to value, capacity `size`, last-writer
wins, eviction at the tail. Entries are kept most-recent first; the
recency promotion performed by `Get` is not modelled because no claim
observes eviction order. -/
structure LRU (κ ν : Type) : Type where
  size : Nat
  entries : List (κ × ν)
  deriving DecidableEq

/-- Fresh empty LRU of the given capacity (`lru.New`; the Go library
rejects a non-positive size, so stores always carry `0 < size`). -/
def LRU.new (κ ν : Type) (size : Nat) : LRU κ ν := { size := size, entries := [] }

/-- Lookup (`lru.Cache.Get`); `none` models the `ok = false` miss. -/
def LRU.get {κ ν : Type} [DecidableEq κ] (c : LRU κ ν) (k : κ) : Option ν :=
  alookup c.entries k

/-- Insert (`lru.Cache.Add`): replaces any previous binding, puts the
entry at the most-recent end and trims to capacity. -/
def LRU.add {κ ν : Type} [DecidableEq κ] (c : LRU κ ν) (k : κ) (v : ν) : LRU κ ν :=
  { c with entries := (ainsert c.entries k v).take c.size }

/-- Modelled from the spec: `common.RollingIndex` (§4.4): a bounded
FIFO of items at dense positions with a total count kept separately
from the retained window. -/
structure RollingIndex : Type where
  size : Nat
  items : List EventHash
  totCount : Int
  deriving DecidableEq

/-- Fresh rolling index (`cm.NewRollingIndex`). -/
def RollingIndex.new (size : Nat) : RollingIndex :=
  { size := size, items := [], totCount := 0 }

/-- Keep the last `size` elements of a list (the retained suffix). -/
def keepLast {α : Type} (size : Nat) (l : List α) : List α :=
  l.drop (l.length - size)

/-- Modelled from the spec: `RollingIndex.Set(item, position)` must be
called with `position` = the total count and advances the total count;
the item is appended to the window, evicting the oldest entry beyond
capacity. -/
def RollingIndex.Set (r : RollingIndex) (item : EventHash) (position : Int) :
    RollingIndex :=
  { r with items := keepLast r.size (r.items ++ [item]), totCount := position + 1 }

/-- Modelled from the spec: `GetLastWindow()` returns the retained
suffix in order. -/
def RollingIndex.GetLastWindow (r : RollingIndex) : List EventHash := r.items

/-- Modelled from the spec: the per-participant record of the
participant-events index (§4.3): the bounded window of
(index, hash) entries in ascending order, plus the highest index ever
assigned (−1 sentinel when none). -/
structure PRecord : Type where
  lastIndex : Int
  window : List (Int × EventHash)
  deriving DecidableEq

/-- Fresh empty per-participant record. -/
def PRecord.empty : PRecord := { lastIndex := -1, window := [] }

/-- Modelled from the spec: `ParticipantEventsCache` (§4.3): a bounded
rolling window per participant, with the participant set it was
created from. -/
structure ParticipantEventsCache : Type where
  size : Nat
  participants : List Peer
  rim : List (String × PRecord)
  deriving DecidableEq

/-- Constructor `NewParticipantEventsCache`: one empty record per
participant. -/
def NewParticipantEventsCache (size : Nat) (participants : List Peer) :
    ParticipantEventsCache :=
  { size := size
    participants := participants
    rim := participants.map fun p => (p.pubKeyHex, PRecord.empty) }

/-- Modelled from the spec: `Set(p, hash, i)` — `i` must be the next
expected index for `p` (any index is accepted into an empty window,
e.g. after `Reset`); otherwise the call is rejected. Appends to the
window, evicting the oldest entry beyond capacity, and remembers `i`
as the highest index assigned. -/
def ParticipantEventsCache.Set (pec : ParticipantEventsCache)
    (participant : String) (hash : EventHash) (index : Int) :
    Except StoreErr ParticipantEventsCache :=
  match alookup pec.rim participant with
  | none => .error { tag := "ParticipantEvents", kind := .keyNotFound, key := participant }
  | some rec =>
      if rec.window.isEmpty ∨ index = rec.lastIndex + 1 then
        .ok { pec with
              rim := ainsert pec.rim participant
                { lastIndex := index
                  window := keepLast pec.size (rec.window ++ [(index, hash)]) } }
      else
        .error { tag := "ParticipantEvents", kind := .skippedIndex, key := toString index }

/-- Modelled from the spec: `Get(p, skip)` returns the retained
entries of `p` with index greater than `skip`. -/
def ParticipantEventsCache.Get (pec : ParticipantEventsCache)
    (participant : String) (skip : Int) : Except StoreErr (List EventHash) :=
  match alookup pec.rim participant with
  | none => .error { tag := "ParticipantEvents", kind := .keyNotFound, key := participant }
  | some rec => .ok ((rec.window.filter fun e => skip < e.1).map fun e => e.2)

/-- Modelled from the spec: `GetItem(p, i)` is the exact-index lookup
in the retained window; below the window it fails with too-low,
otherwise with key-not-found. -/
def ParticipantEventsCache.GetItem (pec : ParticipantEventsCache)
    (participant : String) (index : Int) : Except StoreErr EventHash :=
  match alookup pec.rim participant with
  | none => .error { tag := "ParticipantEvents", kind := .keyNotFound, key := participant }
  | some rec =>
      match rec.window.find? fun e => e.1 = index with
      | some e => .ok e.2
      | none =>
          match rec.window.head? with
          | some lo =>
              if index < lo.1 then
                .error { tag := "ParticipantEvents", kind := .tooLow, key := toString index }
              else
                .error { tag := "ParticipantEvents", kind := .keyNotFound, key := toString index }
          | none =>
              .error { tag := "ParticipantEvents", kind := .keyNotFound, key := toString index }

/-- Modelled from the spec: `GetLast(p)` returns the highest retained
entry of `p` and reports *empty* when none exist. -/
def ParticipantEventsCache.GetLast (pec : ParticipantEventsCache)
    (participant : String) : Except StoreErr EventHash :=
  match alookup pec.rim participant with
  | none => .error { tag := "ParticipantEvents", kind := .empty, key := participant }
  | some rec =>
      match rec.window.getLast? with
      | some e => .ok e.2
      | none => .error { tag := "ParticipantEvents", kind := .empty, key := participant }

/-- Highest index ever assigned to a participant, −1 sentinel when the
participant has no record. -/
def ParticipantEventsCache.lastIndexOf (pec : ParticipantEventsCache)
    (participant : String) : Int :=
  ((alookup pec.rim participant).map PRecord.lastIndex).getD (-1)

/-- Modelled from the spec: `Known()` maps each participant id to the
highest index ever assigned, or the −1 sentinel. -/
def ParticipantEventsCache.Known (pec : ParticipantEventsCache) :
    List (Int × Int) :=
  pec.participants.map fun p => (p.id, pec.lastIndexOf p.pubKeyHex)

/-- Modelled from the spec: `Reset()` clears every participant
window. -/
def ParticipantEventsCache.Reset (pec : ParticipantEventsCache) :
    ParticipantEventsCache :=
  { pec with rim := pec.participants.map fun p => (p.pubKeyHex, PRecord.empty) }

/-- The in-memory store (`InmemStore` of `src/poset/inmem_store.go`).
Go maps become association lists, `int64` counters become `Int`, and
the `sync` locks are dropped (the embedding is sequential). The cached
reverse root index `rootsBySelfParent` is `none` when invalidated. -/
structure InmemStore : Type where
  cacheSize : Nat
  participants : List Peer
  eventCache : LRU EventHash Event
  roundCreatedCache : LRU Int RoundCreated
  roundReceivedCache : LRU Int RoundReceived
  blockCache : LRU Int Block
  frameCache : LRU Int Frame
  consensusCache : RollingIndex
  totConsensusEvents : Int
  repertoireByPubKey : List (String × Peer)
  repertoireByID : List (Int × Peer)
  participantEventsCache : ParticipantEventsCache
  rootsByParticipant : List (String × Root)
  rootsBySelfParent : Option (List (EventHash × Root))
  lastRound : Int
  lastConsensusEvents : List (String × EventHash)
  lastBlock : Int
  deriving DecidableEq

/-- Constructor `NewInmemStore`: base roots for every participant,
fresh caches, sentinels −1, repertoire mirrors filled by `setPeers`.
The `OnNewPeer` hook is not modelled (no claim exercises a dynamic
peer join). -/
def NewInmemStore (participants : List Peer) (cacheSize : Nat) : InmemStore :=
  { cacheSize := cacheSize
    participants := participants
    eventCache := LRU.new EventHash Event cacheSize
    roundCreatedCache := LRU.new Int RoundCreated cacheSize
    roundReceivedCache := LRU.new Int RoundReceived cacheSize
    blockCache := LRU.new Int Block cacheSize
    frameCache := LRU.new Int Frame cacheSize
    consensusCache := RollingIndex.new cacheSize
    totConsensusEvents := 0
    repertoireByPubKey := participants.map fun p => (p.pubKeyHex, p)
    repertoireByID := participants.map fun p => (p.id, p)
    participantEventsCache := NewParticipantEventsCache cacheSize participants
    rootsByParticipant := participants.map fun p => (p.pubKeyHex, NewBaseRoot p.id)
    rootsBySelfParent := none
    lastRound := -1
    lastConsensusEvents := []
    lastBlock := -1 }

/-- Helper used when rebuilding the reverse root index: insert every
participant's root keyed by its self-parent hash (the loop body of
`RootsBySelfParent`). -/
def buildRootsBySelfParent (roots : List (String × Root)) :
    List (EventHash × Root) :=
  roots.foldl (fun m pr => ainsert m pr.2.selfParent.hash pr.2) []

/-- `RootsBySelfParent`: lazily rebuilds the reverse index from the
per-participant roots when it is invalidated, and caches the result.
The Go method returns `(map, error)` and also mutates the receiver;
here it returns the map together with the updated store (the inmem
variant never returns an error). -/
def InmemStore.RootsBySelfParent (s : InmemStore) :
    List (EventHash × Root) × InmemStore :=
  match s.rootsBySelfParent with
  | some m => (m, s)
  | none =>
      let m := buildRootsBySelfParent s.rootsByParticipant
      (m, { s with rootsBySelfParent := some m })

/-- `GetEventBlock(hash)`: event-cache lookup, key-not-found on miss. -/
def InmemStore.GetEventBlock (s : InmemStore) (hash : EventHash) :
    Except StoreErr Event :=
  match s.eventCache.get hash with
  | some e => .ok e
  | none => .error { tag := "EventCache", kind := .keyNotFound, key := toString hash }

/-- `SetEvent(event)`: if the hash is unknown (key-not-found), first
registers the event in the creator's participant-events index; in
every successful path the event is (re-)written into the event LRU. -/
def InmemStore.SetEvent (s : InmemStore) (event : Event) :
    Except StoreErr InmemStore :=
  match s.GetEventBlock event.hash with
  | .ok _ => .ok { s with eventCache := s.eventCache.add event.hash event }
  | .error e =>
      if errIs e .keyNotFound then
        match s.participantEventsCache.Set event.creator event.hash event.index with
        | .error e2 => .error e2
        | .ok pec =>
            .ok { s with
                  participantEventsCache := pec
                  eventCache := s.eventCache.add event.hash event }
      else .error e

/-- `ParticipantEvents(participant, skip)`. -/
def InmemStore.ParticipantEvents (s : InmemStore) (participant : String)
    (skip : Int) : Except StoreErr (List EventHash) :=
  s.participantEventsCache.Get participant skip

/-- `ParticipantEvent(participant, index)`: index lookup with a
fallback to the participant's root when the index equals the root's
self-parent index; no root at all gives a no-root error; otherwise the
lookup error is passed through. -/
def InmemStore.ParticipantEvent (s : InmemStore) (participant : String)
    (index : Int) : Except StoreErr EventHash :=
  match s.participantEventsCache.GetItem participant index with
  | .ok h => .ok h
  | .error e =>
      match alookup s.rootsByParticipant participant with
      | none => .error { tag := "InmemStore.Roots", kind := .noRoot, key := participant }
      | some root =>
          if root.selfParent.index = index then .ok root.selfParent.hash
          else .error e

/-- `LastEventFrom(participant)`: last participant-events entry; on
*empty* fall back to the root's self-parent with `isRoot = true`, or a
no-root error when the participant has no root. -/
def InmemStore.LastEventFrom (s : InmemStore) (participant : String) :
    Except StoreErr (EventHash × Bool) :=
  match s.participantEventsCache.GetLast participant with
  | .ok h => .ok (h, false)
  | .error e =>
      if errIs e .empty then
        match alookup s.rootsByParticipant participant with
        | some root => .ok (root.selfParent.hash, true)
        | none => .error { tag := "InmemStore.Roots", kind := .noRoot, key := participant }
      else .error e

/-- `LastConsensusEventFrom(participant)`: the recorded last consensus
event, else the root fallback with `isRoot = true`, else no-root. -/
def InmemStore.LastConsensusEventFrom (s : InmemStore) (participant : String) :
    Except StoreErr (EventHash × Bool) :=
  match alookup s.lastConsensusEvents participant with
  | some h => .ok (h, false)
  | none =>
      match alookup s.rootsByParticipant participant with
      | some root => .ok (root.selfParent.hash, true)
      | none => .error { tag := "InmemStore.Roots", kind := .noRoot, key := participant }

/-- Loop body of `KnownEvents`: replace a participant's −1 sentinel by
its root's self-parent index (a missing key reads as Go's zero value
0, as in the source). -/
def knownStep (roots : List (String × Root)) (known : List (Int × Int))
    (peer : Peer) : List (Int × Int) :=
  if (alookup known peer.id).getD 0 = -1 then
    match alookup roots peer.pubKeyHex with
    | some root => ainsert known peer.id root.selfParent.index
    | none => known
  else known

/-- `KnownEvents()`: the participant-events `Known()` map with the −1
sentinels replaced by root self-parent indices. -/
def InmemStore.KnownEvents (s : InmemStore) : List (Int × Int) :=
  s.participants.foldl (knownStep s.rootsByParticipant)
    s.participantEventsCache.Known

/-- `ConsensusEvents()`: the retained window of the rolling consensus
index. -/
def InmemStore.ConsensusEvents (s : InmemStore) : List EventHash :=
  s.consensusCache.GetLastWindow

/-- `ConsensusEventsCount()`. -/
def InmemStore.ConsensusEventsCount (s : InmemStore) : Int :=
  s.totConsensusEvents

/-- `AddConsensusEvent(event)`: append to the rolling index at the
current total count, increment the count, record the creator's last
consensus event (always returns nil error in the source). -/
def InmemStore.AddConsensusEvent (s : InmemStore) (event : Event) : InmemStore :=
  { s with
    consensusCache := s.consensusCache.Set event.hash s.totConsensusEvents
    totConsensusEvents := s.totConsensusEvents + 1
    lastConsensusEvents := ainsert s.lastConsensusEvents event.creator event.hash }

/-- `GetRoundCreated(r)`. -/
def InmemStore.GetRoundCreated (s : InmemStore) (r : Int) :
    Except StoreErr RoundCreated :=
  match s.roundCreatedCache.get r with
  | some round => .ok round
  | none => .error { tag := "RoundCreatedCache", kind := .keyNotFound, key := toString r }

/-- `SetRoundCreated(r, round)`: stores the round and raises
`lastRound` to `r` when above it. -/
def InmemStore.SetRoundCreated (s : InmemStore) (r : Int) (round : RoundCreated) :
    InmemStore :=
  { s with
    roundCreatedCache := s.roundCreatedCache.add r round
    lastRound := if r > s.lastRound then r else s.lastRound }

/-- `GetRoundReceived(r)`. -/
def InmemStore.GetRoundReceived (s : InmemStore) (r : Int) :
    Except StoreErr RoundReceived :=
  match s.roundReceivedCache.get r with
  | some round => .ok round
  | none => .error { tag := "RoundReceivedCache", kind := .keyNotFound, key := toString r }

/-- `SetRoundReceived(r, round)`: stores the round and raises
`lastRound` to `r` when above it. -/
def InmemStore.SetRoundReceived (s : InmemStore) (r : Int) (round : RoundReceived) :
    InmemStore :=
  { s with
    roundReceivedCache := s.roundReceivedCache.add r round
    lastRound := if r > s.lastRound then r else s.lastRound }

/-- `LastRound()`. -/
def InmemStore.LastRound (s : InmemStore) : Int := s.lastRound

/-- `RoundClothos(r)`: the created round's clotho set, empty when the
round is unknown (the lookup error is swallowed, never surfaced). -/
def InmemStore.RoundClothos (s : InmemStore) (r : Int) : List EventHash :=
  match s.GetRoundCreated r with
  | .error _ => []
  | .ok round => round.Clotho

/-- `RoundEvents(r)`: the number of events in the created round, zero
when the round is unknown (the lookup error is swallowed). -/
def InmemStore.RoundEvents (s : InmemStore) (r : Int) : Nat :=
  match s.GetRoundCreated r with
  | .error _ => 0
  | .ok round => round.events.length

/-- `GetRoot(participant)`. -/
def InmemStore.GetRoot (s : InmemStore) (participant : String) :
    Except StoreErr Root :=
  match alookup s.rootsByParticipant participant with
  | some root => .ok root
  | none => .error { tag := "RootCache", kind := .keyNotFound, key := participant }

/-- `GetBlock(index)`. -/
def InmemStore.GetBlock (s : InmemStore) (index : Int) : Except StoreErr Block :=
  match s.blockCache.get index with
  | some b => .ok b
  | none => .error { tag := "BlockCache", kind := .keyNotFound, key := toString index }

/-- `SetBlock(block)`: stores the block under its index and raises
`lastBlock` when above it (the prior `GetBlock` can only fail with
key-not-found, which is ignored as in the source). -/
def InmemStore.SetBlock (s : InmemStore) (block : Block) : InmemStore :=
  { s with
    blockCache := s.blockCache.add block.Index block
    lastBlock := if block.Index > s.lastBlock then block.Index else s.lastBlock }

/-- `LastBlockIndex()`. -/
def InmemStore.LastBlockIndex (s : InmemStore) : Int := s.lastBlock

/-- `GetFrame(index)`. -/
def InmemStore.GetFrame (s : InmemStore) (index : Int) : Except StoreErr Frame :=
  match s.frameCache.get index with
  | some f => .ok f
  | none => .error { tag := "FrameCache", kind := .keyNotFound, key := toString index }

/-- `SetFrame(frame)`: stores the frame under its round (the prior
`GetFrame` can only fail with key-not-found, which is ignored). -/
def InmemStore.SetFrame (s : InmemStore) (frame : Frame) : InmemStore :=
  { s with frameCache := s.frameCache.add frame.round frame }

/-- `Reset(roots)`: replaces the per-participant roots, invalidates
the reverse index, recreates the event and round caches and the
rolling consensus index, clears the participant-events windows, resets
`lastRound` and `lastBlock` to −1, and eagerly rebuilds the reverse
root index. The block cache, the frame cache, `lastConsensusEvents`
and `totConsensusEvents` are not touched. The Go error return is
always nil in this variant (cache construction failure exits the
process, and the participant-events reset never fails). -/
def InmemStore.Reset (s : InmemStore) (roots : List (String × Root)) : InmemStore :=
  let s1 : InmemStore :=
    { s with
      rootsByParticipant := roots
      rootsBySelfParent := none
      eventCache := LRU.new EventHash Event s.cacheSize
      roundCreatedCache := LRU.new Int RoundCreated s.cacheSize
      roundReceivedCache := LRU.new Int RoundReceived s.cacheSize
      consensusCache := RollingIndex.new s.cacheSize
      participantEventsCache := s.participantEventsCache.Reset
      lastRound := -1
      lastBlock := -1 }
  s1.RootsBySelfParent.2

/-! Concrete fixtures used by witnesses and counterexamples. -/

/-- Sample participant. -/
def peerA : Peer := { pubKeyHex := "pA", id := 1 }

/-- Second sample participant. -/
def peerB : Peer := { pubKeyHex := "pB", id := 2 }

/-- Sample event by `peerA` at index 0. -/
def ev1 : Event := { hash := 100, creator := "pA", index := 0, payload := 0 }

/-- Sample block at index 2. -/
def blk1 : Block := { index := 2, payload := 0 }

/-- Sample frame for round 5. -/
def frm1 : Frame := { round := 5, payload := 0 }

/-- Sample created round. -/
def rcX : RoundCreated := { clothos := [7, 8], events := [7, 8, 9] }

/-- Sample received round. -/
def rrX : RoundReceived := { payload := 0 }

/-- Sample replacement root. -/
def rootX : Root := { selfParent := { hash := 500, index := -1 } }

/-- Second sample replacement root with a distinct self-parent. -/
def rootY : Root := { selfParent := { hash := 600, index := 7 } }

/-- Fresh store over `peerA` with cache size 10. -/
def store0 : InmemStore := NewInmemStore [peerA] 10

/-- A mutating operation of the `Store` interface (the read-only
getters do not change any observable state and are omitted). -/
inductive StoreOp : Type
  | setEvent (e : Event)
  | addConsensusEvent (e : Event)
  | setRoundCreated (r : Int) (rc : RoundCreated)
  | setRoundReceived (r : Int) (rr : RoundReceived)
  | setBlock (b : Block)
  | setFrame (f : Frame)
  | reset (roots : List (String × Root))
  deriving DecidableEq

/-- Run one mutating operation on the store; a failing `SetEvent`
leaves the store unchanged (the Go method returns before writing). -/
def applyOp (s : InmemStore) (op : StoreOp) : InmemStore :=
  match op with
  | .setEvent e =>
      match s.SetEvent e with
      | .ok s' => s'
      | .error _ => s
  | .addConsensusEvent e => s.AddConsensusEvent e
  | .setRoundCreated r rc => s.SetRoundCreated r rc
  | .setRoundReceived r rr => s.SetRoundReceived r rr
  | .setBlock b => s.SetBlock b
  | .setFrame f => s.SetFrame f
  | .reset roots => s.Reset roots

/-- Discriminator for the `Reset` operation. -/
def StoreOp.isReset : StoreOp → Bool
  | .reset _ => true
  | _ => false

/-- Discriminator for the `AddConsensusEvent` operation. -/
def StoreOp.isAddConsensusEvent : StoreOp → Bool
  | .addConsensusEvent _ => true
  | _ => false

/-! Theorems. First the association-list library lemmas, then the
per-claim results. -/

theorem alookup_ainsert_self {κ ν : Type} [DecidableEq κ]
    (l : List (κ × ν)) (k : κ) (v : ν) : alookup (ainsert l k v) k = some v := by
  simp [ainsert, alookup]

theorem alookup_aerase_ne {κ ν : Type} [DecidableEq κ]
    (l : List (κ × ν)) (k k' : κ) (h : k' ≠ k) :
    alookup (aerase l k) k' = alookup l k' := by
  induction l with
  | nil => rfl
  | cons e t ih =>
      by_cases he : e.1 = k
      · have hne : e.1 ≠ k' := by rw [he]; exact fun hh => h hh.symm
        simp only [aerase, if_pos he, alookup, if_neg hne]
        exact ih
      · simp only [aerase, if_neg he, alookup, ih]

theorem alookup_ainsert_ne {κ ν : Type} [DecidableEq κ]
    (l : List (κ × ν)) (k k' : κ) (v : ν) (h : k' ≠ k) :
    alookup (ainsert l k v) k' = alookup l k' := by
  have hne : (k, v).1 ≠ k' := fun hh => h hh.symm
  simp only [ainsert, alookup, if_neg hne]
  exact alookup_aerase_ne l k k' h

theorem aerase_of_alookup_none {κ ν : Type} [DecidableEq κ]
    (l : List (κ × ν)) (k : κ) (h : alookup l k = none) : aerase l k = l := by
  induction l with
  | nil => rfl
  | cons e t ih =>
      by_cases he : e.1 = k
      · simp [alookup, he] at h
      · simp [alookup, he] at h
        simp [aerase, he, ih h]

/-- Auxiliary: looking a key up in a keyed image of a duplicate-free
list finds the originating element's value. -/
theorem alookup_map_of_nodup {α κ ν : Type} [DecidableEq κ]
    (l : List α) (key : α → κ) (val : α → ν) (a : α)
    (hnd : (l.map key).Nodup) (ha : a ∈ l) :
    alookup (l.map fun x => (key x, val x)) (key a) = some (val a) := by
  induction l with
  | nil => cases ha
  | cons x t ih =>
      rw [List.map_cons, List.nodup_cons] at hnd
      rcases List.mem_cons.1 ha with h | h
      · subst h
        simp [alookup]
      · by_cases hk : key x = key a
        · exact absurd (hk ▸ List.mem_map_of_mem key h) hnd.1
        · rw [List.map_cons]
          show (if key x = key a then some (val x) else _) = _
          rw [if_neg hk]
          exact ih hnd.2 h

/-- Auxiliary: a list trimmed to its last `size` elements still ends in
the element just appended, provided the capacity is positive. -/
theorem keepLast_getLast?_append {α : Type} (size : Nat) (hs : 0 < size)
    (l : List α) (a : α) : (keepLast size (l ++ [a])).getLast? = some a := by
  unfold keepLast
  rw [List.drop_append_of_le_length (by simp; omega)]
  exact List.getLast?_concat _

/-- C1 counterexample: on a fresh store over one participant, add one
consensus event and then `Reset`; `ConsensusEventsCount()` still
returns 1, not 0, because `Reset` recreates the rolling window but
never touches `totConsensusEvents`. -/
theorem reset_keeps_consensus_count_cx :
    ((store0.AddConsensusEvent ev1).Reset [("pA", rootX)]).ConsensusEventsCount = 1
    ∧ (1 : Int) ≠ 0 :=
  ⟨rfl, by decide⟩

/-- C1 (amended): for every store state and root map, `Reset` empties
the rolling consensus window (`ConsensusEvents()` becomes empty) but
leaves the total count `ConsensusEventsCount()` unchanged rather than
rewinding it to 0. -/
theorem reset_consensus_index (s : InmemStore) (roots : List (String × Root)) :
    (s.Reset roots).ConsensusEventsCount = s.ConsensusEventsCount
    ∧ (s.Reset roots).ConsensusEvents = [] :=
  ⟨rfl, rfl⟩

/-- C4: `AddConsensusEvent(e)` increments the total count by one,
appends `e`'s hash at the end of the rolling window (at position equal
to the pre-call total count: the new rolling total becomes that count
plus one), records `e`'s hash as the creator's last consensus event,
and immediately afterwards `LastConsensusEventFrom(e.creator)` returns
`e`'s hash with `isRoot = false` and no error. The capacity hypothesis
mirrors the Go LRU/rolling caches, which reject a non-positive size at
construction. -/
theorem addConsensusEvent_spec (s : InmemStore) (e : Event)
    (hs : 0 < s.consensusCache.size) :
    (s.AddConsensusEvent e).totConsensusEvents = s.ConsensusEventsCount + 1
    ∧ (s.AddConsensusEvent e).consensusCache.totCount = s.ConsensusEventsCount + 1
    ∧ (s.AddConsensusEvent e).consensusCache.items.getLast? = some e.hash
    ∧ alookup (s.AddConsensusEvent e).lastConsensusEvents e.creator = some e.hash
    ∧ (s.AddConsensusEvent e).LastConsensusEventFrom e.creator = .ok (e.hash, false) := by
  refine ⟨rfl, rfl, ?_, ?_, ?_⟩
  · exact keepLast_getLast?_append s.consensusCache.size hs s.consensusCache.items e.hash
  · exact alookup_ainsert_self s.lastConsensusEvents e.creator e.hash
  · show InmemStore.LastConsensusEventFrom _ _ = _
    unfold InmemStore.LastConsensusEventFrom
    rw [show (s.AddConsensusEvent e).lastConsensusEvents
          = ainsert s.lastConsensusEvents e.creator e.hash from rfl]
    rw [alookup_ainsert_self]

/-- C4 witness: the specification of `AddConsensusEvent` evaluated on
a concrete fresh store and event. -/
theorem addConsensusEvent_spec_witness :
    (store0.AddConsensusEvent ev1).totConsensusEvents = store0.ConsensusEventsCount + 1
    ∧ (store0.AddConsensusEvent ev1).consensusCache.totCount = store0.ConsensusEventsCount + 1
    ∧ (store0.AddConsensusEvent ev1).consensusCache.items.getLast? = some ev1.hash
    ∧ alookup (store0.AddConsensusEvent ev1).lastConsensusEvents ev1.creator = some ev1.hash
    ∧ (store0.AddConsensusEvent ev1).LastConsensusEventFrom ev1.creator = .ok (ev1.hash, false) :=
  addConsensusEvent_spec store0 ev1 (by decide)

/-- C9: when no created round is stored for `r`, `RoundClothos(r)`
returns the empty list and `RoundEvents(r)` returns 0; both functions
are total (the key-not-found from `GetRoundCreated` is swallowed and
never surfaced to the caller). -/
theorem roundClothos_roundEvents_swallow (s : InmemStore) (r : Int)
    (h : s.roundCreatedCache.get r = none) :
    s.RoundClothos r = [] ∧ s.RoundEvents r = 0 := by
  constructor
  · unfold InmemStore.RoundClothos InmemStore.GetRoundCreated
    rw [h]
  · unfold InmemStore.RoundEvents InmemStore.GetRoundCreated
    rw [h]

/-- C9 witness: the swallow behaviour evaluated at a concrete fresh
store and round number. -/
theorem roundClothos_roundEvents_swallow_witness :
    store0.RoundClothos 5 = [] ∧ store0.RoundEvents 5 = 0 :=
  roundClothos_roundEvents_swallow store0 5 rfl

/-- C10: `Reset(roots)` leaves the block cache, the frame cache and
the last-consensus-events map unchanged: stored blocks and frames are
still retrievable afterwards (although `LastBlockIndex()` reads −1),
and a participant's recorded last consensus event is still returned
with `isRoot = false` instead of falling back to the new root. -/
theorem reset_preserves_blocks_frames_lce (s : InmemStore)
    (roots : List (String × Root)) :
    (s.Reset roots).blockCache = s.blockCache
    ∧ (s.Reset roots).frameCache = s.frameCache
    ∧ (s.Reset roots).lastConsensusEvents = s.lastConsensusEvents
    ∧ (∀ i : Int, (s.Reset roots).GetBlock i = s.GetBlock i)
    ∧ (∀ i : Int, (s.Reset roots).GetFrame i = s.GetFrame i)
    ∧ (s.Reset roots).LastBlockIndex = -1
    ∧ (∀ (p : String) (h : EventHash),
        alookup s.lastConsensusEvents p = some h →
        (s.Reset roots).LastConsensusEventFrom p = .ok (h, false)) := by
  refine ⟨rfl, rfl, rfl, fun i => rfl, fun i => rfl, rfl, fun p h hp => ?_⟩
  show InmemStore.LastConsensusEventFrom _ _ = _
  unfold InmemStore.LastConsensusEventFrom
  rw [show (s.Reset roots).lastConsensusEvents = s.lastConsensusEvents from rfl, hp]

/-- C10 witness: on a concrete store with one consensus event, a
block and a frame recorded, `Reset` keeps the block, the frame and the
pre-reset last consensus event observable. -/
theorem reset_preserves_blocks_frames_lce_witness :
    ((((store0.AddConsensusEvent ev1).SetBlock blk1).SetFrame frm1).Reset
        [("pA", rootX)]).LastConsensusEventFrom "pA" = .ok (100, false) :=
  (reset_preserves_blocks_frames_lce
      (((store0.AddConsensusEvent ev1).SetBlock blk1).SetFrame frm1)
      [("pA", rootX)]).2.2.2.2.2.2 "pA" 100 rfl

/-- Auxiliary: folding the reverse-index insertion over roots whose
self-parent hash never occurs leaves a key's binding unchanged. -/
theorem build_foldl_alookup_not_mem (roots : List (String × Root))
    (m : List (EventHash × Root)) (h : EventHash)
    (hh : h ∉ roots.map fun pr => pr.2.selfParent.hash) :
    alookup (roots.foldl (fun m pr => ainsert m pr.2.selfParent.hash pr.2) m) h
      = alookup m h := by
  induction roots generalizing m with
  | nil => rfl
  | cons pr t ih =>
      simp only [List.map_cons, List.mem_cons, not_or] at hh
      rw [List.foldl_cons, ih _ hh.2, alookup_ainsert_ne _ _ _ _ hh.1]

/-- Auxiliary: with pairwise-distinct self-parent hashes, every root
inserted by the reverse-index rebuild is found under its hash. -/
theorem build_foldl_alookup_mem (roots : List (String × Root))
    (m : List (EventHash × Root)) (pr : String × Root)
    (hnd : (roots.map fun pr => pr.2.selfParent.hash).Nodup)
    (hmem : pr ∈ roots) :
    alookup (roots.foldl (fun m pr => ainsert m pr.2.selfParent.hash pr.2) m)
        pr.2.selfParent.hash = some pr.2 := by
  induction roots generalizing m with
  | nil => cases hmem
  | cons q t ih =>
      rw [List.map_cons, List.nodup_cons] at hnd
      rcases List.mem_cons.1 hmem with h | h
      · subst h
        rw [List.foldl_cons, build_foldl_alookup_not_mem t _ _ hnd.1,
          alookup_ainsert_self]
      · rw [List.foldl_cons]
        exact ih _ hnd.2 h

/-- Auxiliary: with pairwise-distinct self-parent hashes, each
insertion of the reverse-index rebuild lands on a fresh key, so the
rebuilt map has exactly one entry per root. -/
theorem build_foldl_length (roots : List (String × Root))
    (m : List (EventHash × Root))
    (hnd : (roots.map fun pr => pr.2.selfParent.hash).Nodup)
    (hfresh : ∀ pr ∈ roots, alookup m pr.2.selfParent.hash = none) :
    (roots.foldl (fun m pr => ainsert m pr.2.selfParent.hash pr.2) m).length
      = m.length + roots.length := by
  induction roots generalizing m with
  | nil => rfl
  | cons q t ih =>
      rw [List.map_cons, List.nodup_cons] at hnd
      have hq : alookup m q.2.selfParent.hash = none :=
        hfresh q (List.mem_cons_self q t)
      have hstep : (ainsert m q.2.selfParent.hash q.2).length = m.length + 1 := by
        rw [ainsert, aerase_of_alookup_none m _ hq, List.length_cons]
      have hrest : ∀ pr ∈ t, alookup (ainsert m q.2.selfParent.hash q.2)
          pr.2.selfParent.hash = none := by
        intro pr hpr
        have hne : pr.2.selfParent.hash ≠ q.2.selfParent.hash := by
          intro hc
          exact hnd.1 (hc ▸ List.mem_map_of_mem (fun pr => pr.2.selfParent.hash) hpr)
        rw [alookup_ainsert_ne _ _ _ _ hne]
        exact hfresh pr (List.mem_cons_of_mem q hpr)
      rw [List.foldl_cons, ih _ hnd.2 hrest, hstep, List.length_cons]
      omega

/-- C2 counterexample: `Reset` with two participants whose roots share
the same self-parent hash yields a reverse root index with a single
entry, not one entry per participant — the map keyed by hash collapses
the two roots. -/
theorem reset_roots_by_self_parent_cx :
    (store0.Reset [("pA", rootX), ("pB", rootX)]).RootsBySelfParent.1.length = 1
    ∧ [("pA", rootX), ("pB", rootX)].length = 2
    ∧ (1 : Nat) ≠ 2 :=
  ⟨rfl, rfl, by decide⟩

/-- C2 (amended): after `Reset(roots)`, `LastRound()` and
`LastBlockIndex()` are −1 and `ConsensusEvents()` is empty; whenever
the supplied roots' self-parent hashes are pairwise distinct (the
normal case — with duplicate hashes the hash-keyed map collapses
them), `RootsBySelfParent()` contains exactly one entry per
participant in `roots`, each keyed by that participant's root
self-parent hash. -/
theorem reset_post_state (s : InmemStore) (roots : List (String × Root))
    (hnd : (roots.map fun pr => pr.2.selfParent.hash).Nodup) :
    (s.Reset roots).LastRound = -1
    ∧ (s.Reset roots).LastBlockIndex = -1
    ∧ (s.Reset roots).ConsensusEvents = []
    ∧ (s.Reset roots).RootsBySelfParent.1.length = roots.length
    ∧ ∀ pr ∈ roots,
        alookup (s.Reset roots).RootsBySelfParent.1 pr.2.selfParent.hash
          = some pr.2 := by
  have hfst : (s.Reset roots).RootsBySelfParent.1 = buildRootsBySelfParent roots := rfl
  refine ⟨rfl, rfl, rfl, ?_, ?_⟩
  · rw [hfst, buildRootsBySelfParent,
      build_foldl_length roots [] hnd (fun pr _ => rfl)]
    simp
  · intro pr hpr
    rw [hfst, buildRootsBySelfParent, build_foldl_alookup_mem roots [] pr hnd hpr]

/-- C2 witness: `Reset` on a concrete store with two
distinct-hash roots, observed through the amended statement. -/
theorem reset_post_state_witness :
    (store0.Reset [("pA", rootX), ("pB", rootY)]).LastRound = -1
    ∧ (store0.Reset [("pA", rootX), ("pB", rootY)]).LastBlockIndex = -1
    ∧ (store0.Reset [("pA", rootX), ("pB", rootY)]).ConsensusEvents = []
    ∧ (store0.Reset [("pA", rootX), ("pB", rootY)]).RootsBySelfParent.1.length
        = [("pA", rootX), ("pB", rootY)].length
    ∧ ∀ pr ∈ [("pA", rootX), ("pB", rootY)],
        alookup (store0.Reset [("pA", rootX), ("pB", rootY)]).RootsBySelfParent.1
          pr.2.selfParent.hash = some pr.2 :=
  reset_post_state store0 [("pA", rootX), ("pB", rootY)] (by decide)

/-- C8 counterexample: from a reachable state whose `lastRound` is 10,
`SetRoundCreated(5, …)` followed by `SetRoundReceived(3, …)` leaves
`LastRound() = 10`, not 5 as the claim's "in particular" asserts for
arbitrary states. -/
theorem setRound_lastRound_cx :
    ((((store0.SetRoundCreated 10 rcX).SetRoundCreated 5 rcX).SetRoundReceived
        3 rrX).LastRound = 10)
    ∧ (10 : Int) ≠ 5 :=
  ⟨rfl, by decide⟩

/-- C8 (amended): both round setters update `lastRound` to the maximum
of its current value and the given round number; consequently
`SetRoundCreated(r, …)` followed by `SetRoundReceived(r′, …)` with
`r′ < r` leaves `LastRound() = r` provided the current `lastRound` is
at most `r` (as on a fresh store, where `LastRound()` starts at the
sentinel −1). -/
theorem setRound_lastRound_max (s : InmemStore) (r r' : Int)
    (rc : RoundCreated) (rr : RoundReceived) :
    (s.SetRoundCreated r rc).LastRound = max s.LastRound r
    ∧ (s.SetRoundReceived r rr).LastRound = max s.LastRound r
    ∧ (s.LastRound ≤ r → r' < r →
        ((s.SetRoundCreated r rc).SetRoundReceived r' rr).LastRound = r)
    ∧ (∀ (peers : List Peer) (cs : Nat), (NewInmemStore peers cs).LastRound = -1) := by
  have hmax : ∀ l x : Int, (if x > l then x else l) = max l x := by
    intro l x
    rcases le_or_lt x l with h | h
    · rw [if_neg (not_lt.2 h), max_eq_left h]
    · rw [if_pos h, max_eq_right h.le]
  refine ⟨hmax s.lastRound r, hmax s.lastRound r, fun h1 h2 => ?_, fun _ _ => rfl⟩
  show (if r' > (if r > s.lastRound then r else s.lastRound) then r'
        else (if r > s.lastRound then r else s.lastRound)) = r
  rw [hmax s.lastRound r, hmax _ r',
    max_eq_right (show s.lastRound ≤ r from h1), max_eq_left h2.le]

/-- C8 witness: the max behaviour and the `r′ < r` sequence evaluated
on a concrete fresh store with `r = 5`, `r′ = 3`. -/
theorem setRound_lastRound_max_witness :
    ((store0.SetRoundCreated 5 rcX).SetRoundReceived 3 rrX).LastRound = 5 :=
  (setRound_lastRound_max store0 5 3 rcX rrX).2.2.1 (by decide) (by decide)

/-- Auxiliary: trimming a one-element list to a positive capacity
keeps the element. -/
theorem keepLast_singleton {α : Type} (size : Nat) (hs : 0 < size) (x : α) :
    keepLast size [x] = [x] := by
  unfold keepLast
  rw [show [x].length - size = 0 by simp; omega]
  rfl

/-- Auxiliary: a freshly added LRU entry is found again as long as the
capacity is positive. -/
theorem LRU.get_add_self {κ ν : Type} [DecidableEq κ] (c : LRU κ ν) (k : κ) (v : ν)
    (h : 0 < c.size) : (c.add k v).get k = some v := by
  show alookup (((k, v) :: aerase c.entries k).take c.size) k = some v
  cases hs : c.size with
  | zero => omega
  | succ n => simp [List.take_succ_cons, alookup]

/-- Auxiliary: `GetEventBlock` can only fail with key-not-found. -/
theorem getEventBlock_error_kind (s : InmemStore) (h : EventHash) (err : StoreErr)
    (hg : s.GetEventBlock h = .error err) : err.kind = .keyNotFound := by
  unfold InmemStore.GetEventBlock at hg
  cases hget : s.eventCache.get h with
  | none =>
      rw [hget] at hg
      cases hg
      rfl
  | some v =>
      rw [hget] at hg
      cases hg

/-- Auxiliary: a successful `SetEvent` always writes the event into
the event LRU, whatever else it does. -/
theorem setEvent_ok_eventCache (s s1 : InmemStore) (e : Event)
    (h1 : s.SetEvent e = .ok s1) :
    s1.eventCache = s.eventCache.add e.hash e := by
  unfold InmemStore.SetEvent at h1
  split at h1
  · cases h1
    rfl
  · split at h1
    · split at h1
      · cases h1
      · cases h1
        rfl
    · cases h1

/-- Auxiliary: a successful `SetEvent` never changes cache sizes. -/
theorem setEvent_ok_eventCache_size (s s1 : InmemStore) (e : Event)
    (h1 : s.SetEvent e = .ok s1) :
    s1.eventCache.size = s.eventCache.size := by
  rw [setEvent_ok_eventCache s s1 e h1]
  rfl

/-- Auxiliary: calling `SetEvent` again on an event whose hash the
event LRU already holds succeeds and only rewrites the LRU entry; in
particular the participant-events index is untouched. -/
theorem setEvent_second_call (s s1 : InmemStore) (e : Event)
    (hsize : 0 < s.eventCache.size) (h1 : s.SetEvent e = .ok s1) :
    s1.SetEvent e = .ok { s1 with eventCache := s1.eventCache.add e.hash e } := by
  have hget : s1.GetEventBlock e.hash = .ok e := by
    unfold InmemStore.GetEventBlock
    rw [setEvent_ok_eventCache s s1 e h1, LRU.get_add_self s.eventCache e.hash e hsize]
  unfold InmemStore.SetEvent
  rw [hget]

/-- C5: `SetEvent` is idempotent. First, generally: after a successful
`SetEvent(e)`, a second `SetEvent(e)` returns no error and produces a
store that differs only in the event-LRU entry (the cached payload),
with the participant-events index untouched. Second, the scenario of
the claim: inserting an event twice into a fresh single-participant
store registers it once, so `ParticipantEvents(creator, −1)` has
length 1. The positive-capacity hypotheses mirror the Go LRU, which
rejects a non-positive construction size. -/
theorem setEvent_idempotent :
    (∀ (s s1 : InmemStore) (e : Event), 0 < s.eventCache.size →
      s.SetEvent e = .ok s1 →
      s1.SetEvent e = .ok { s1 with eventCache := s1.eventCache.add e.hash e })
    ∧ (∀ (peer : Peer) (cs : Nat) (e : Event), 0 < cs →
      e.creator = peer.pubKeyHex → e.index = 0 →
      ∃ s1 s2, (NewInmemStore [peer] cs).SetEvent e = .ok s1
        ∧ s1.SetEvent e = .ok s2
        ∧ s2.participantEventsCache = s1.participantEventsCache
        ∧ s2.ParticipantEvents e.creator (-1) = .ok [e.hash]) := by
  constructor
  · exact fun s s1 e hs h1 => setEvent_second_call s s1 e hs h1
  · intro peer cs e hcs hc hi
    obtain ⟨eh, ec, ei, ep⟩ := e
    simp only at hc hi
    subst hc
    subst hi
    cases cs with
    | zero => omega
    | succ n =>
        have hget0 : (NewInmemStore [peer] (n + 1)).GetEventBlock eh
            = .error { tag := "EventCache", kind := .keyNotFound,
                       key := toString eh } := rfl
        have hset : (NewInmemStore [peer] (n + 1)).participantEventsCache.Set
            peer.pubKeyHex eh 0 = .ok
              { size := n + 1
                participants := [peer]
                rim := ainsert [(peer.pubKeyHex, PRecord.empty)] peer.pubKeyHex
                  { lastIndex := 0, window := [((0 : Int), eh)] } } := by
          simp [NewInmemStore, NewParticipantEventsCache,
            ParticipantEventsCache.Set, alookup, PRecord.empty,
            keepLast_singleton (n + 1) (Nat.succ_pos n) ((0 : Int), eh)]
        have h1 : (NewInmemStore [peer] (n + 1)).SetEvent
            { hash := eh, creator := peer.pubKeyHex, index := 0, payload := ep }
            = .ok
              { NewInmemStore [peer] (n + 1) with
                participantEventsCache :=
                  { size := n + 1
                    participants := [peer]
                    rim := ainsert [(peer.pubKeyHex, PRecord.empty)] peer.pubKeyHex
                      { lastIndex := 0, window := [((0 : Int), eh)] } }
                eventCache := (LRU.new EventHash Event (n + 1)).add eh
                  { hash := eh, creator := peer.pubKeyHex, index := 0,
                    payload := ep } } := by
          have hif : errIs (StoreErr.mk "EventCache" StoreErrKind.keyNotFound
              (toString eh)) StoreErrKind.keyNotFound = true := rfl
          unfold InmemStore.SetEvent
          rw [hget0]
          show (if errIs { tag := "EventCache", kind := .keyNotFound,
                           key := toString eh } .keyNotFound then _ else _) = _
          rw [if_pos hif, hset]
          rfl
        refine ⟨_, _, h1, setEvent_second_call _ _ _ (Nat.succ_pos n) h1, rfl, ?_⟩
        simp [InmemStore.ParticipantEvents, ParticipantEventsCache.Get,
          alookup_ainsert_self]

/-- C5 witness: double insertion of a concrete event into a concrete
fresh store. -/
theorem setEvent_idempotent_witness :
    ∃ s1 s2, (NewInmemStore [peerA] 10).SetEvent ev1 = .ok s1
      ∧ s1.SetEvent ev1 = .ok s2
      ∧ s2.participantEventsCache = s1.participantEventsCache
      ∧ s2.ParticipantEvents ev1.creator (-1) = .ok [ev1.hash] :=
  setEvent_idempotent.2 peerA 10 ev1 (by decide) rfl rfl

/-- Auxiliary: `GetLast` reports *empty* whenever the participant has
no retained window entries (also when it has no record at all). -/
theorem pec_getLast_empty (pec : ParticipantEventsCache) (p : String)
    (hw : ((alookup pec.rim p).map PRecord.window).getD [] = []) :
    pec.GetLast p
      = .error { tag := "ParticipantEvents", kind := .empty, key := p } := by
  unfold ParticipantEventsCache.GetLast
  cases hl : alookup pec.rim p with
  | none => rfl
  | some rec =>
      rw [hl] at hw
      simp only [Option.map_some', Option.getD_some] at hw
      show (match rec.window.getLast? with
          | some e => Except.ok e.2
          | none => Except.error
              (StoreErr.mk "ParticipantEvents" StoreErrKind.empty p))
        = Except.error (StoreErr.mk "ParticipantEvents" StoreErrKind.empty p)
      rw [hw]
      rfl

/-- Auxiliary: `knownStep` only ever touches the processed peer's id. -/
theorem knownStep_alookup_ne (roots : List (String × Root))
    (known : List (Int × Int)) (q : Peer) (id : Int) (h : id ≠ q.id) :
    alookup (knownStep roots known q) id = alookup known id := by
  unfold knownStep
  by_cases hc : (alookup known q.id).getD 0 = -1
  · rw [if_pos hc]
    cases hr : alookup roots q.pubKeyHex with
    | none => rfl
    | some root => exact alookup_ainsert_ne known q.id id root.selfParent.index h
  · rw [if_neg hc]

/-- Auxiliary: folding `knownStep` over peers with other ids leaves a
binding unchanged. -/
theorem foldl_knownStep_not_mem (l : List Peer) (roots : List (String × Root))
    (known : List (Int × Int)) (id : Int) (h : id ∉ l.map Peer.id) :
    alookup (l.foldl (knownStep roots) known) id = alookup known id := by
  induction l generalizing known with
  | nil => rfl
  | cons q t ih =>
      simp only [List.map_cons, List.mem_cons, not_or] at h
      rw [List.foldl_cons, ih _ h.2, knownStep_alookup_ne roots known q id h.1]

/-- Auxiliary: folding `knownStep` over a duplicate-free peer list
replaces a −1 binding by the peer's root self-parent index. -/
theorem foldl_knownStep_mem (l : List Peer) (roots : List (String × Root))
    (known : List (Int × Int)) (peer : Peer) (root : Root)
    (hnd : (l.map Peer.id).Nodup) (hmem : peer ∈ l)
    (hk : alookup known peer.id = some (-1))
    (hr : alookup roots peer.pubKeyHex = some root) :
    alookup (l.foldl (knownStep roots) known) peer.id
      = some root.selfParent.index := by
  induction l generalizing known with
  | nil => cases hmem
  | cons q t ih =>
      rw [List.map_cons, List.nodup_cons] at hnd
      by_cases hqp : q.id = peer.id
      · have hpq : peer = q := by
          rcases List.mem_cons.1 hmem with h | h
          · exact h
          · exfalso
            apply hnd.1
            rw [hqp]
            exact List.mem_map_of_mem Peer.id h
        subst hpq
        rw [List.foldl_cons, foldl_knownStep_not_mem t roots _ peer.id hnd.1]
        unfold knownStep
        rw [hk, if_pos (show ((some (-1 : Int)).getD 0) = -1 from rfl), hr]
        exact alookup_ainsert_self known peer.id root.selfParent.index
      · have hmem' : peer ∈ t := by
          rcases List.mem_cons.1 hmem with h | h
          · exfalso
            apply hqp
            rw [h]
          · exact h
        rw [List.foldl_cons]
        exact ih (knownStep roots known q) hnd.2 hmem' (by
          rw [knownStep_alookup_ne roots known q peer.id (fun hh => hqp hh.symm)]
          exact hk)

/-- C6: a participant registered in the store (it has a root) with no
events ever inserted for it gets the root fallback: `LastEventFrom`
returns the root's self-parent hash with `isRoot = true` and no error,
and `KnownEvents()` maps the participant's id to the root's
self-parent index in place of the −1 sentinel; a participant that is
not registered (no root, no events) gets a no-root error from
`LastEventFrom`. -/
theorem lastEventFrom_knownEvents_root_fallback :
    (∀ (s : InmemStore) (p : String) (root : Root),
      ((alookup s.participantEventsCache.rim p).map PRecord.window).getD [] = [] →
      alookup s.rootsByParticipant p = some root →
      s.LastEventFrom p = .ok (root.selfParent.hash, true))
    ∧ (∀ (s : InmemStore) (peer : Peer) (root : Root),
      s.participantEventsCache.participants = s.participants →
      (s.participants.map Peer.id).Nodup →
      peer ∈ s.participants →
      s.participantEventsCache.lastIndexOf peer.pubKeyHex = -1 →
      alookup s.rootsByParticipant peer.pubKeyHex = some root →
      alookup s.KnownEvents peer.id = some root.selfParent.index)
    ∧ (∀ (s : InmemStore) (p : String),
      ((alookup s.participantEventsCache.rim p).map PRecord.window).getD [] = [] →
      alookup s.rootsByParticipant p = none →
      s.LastEventFrom p
        = .error { tag := "InmemStore.Roots", kind := .noRoot, key := p }) := by
  refine ⟨fun s p root hw hr => ?_, fun s peer root hpp hnd hmem hlast hr => ?_,
    fun s p hw hr => ?_⟩
  · unfold InmemStore.LastEventFrom
    rw [pec_getLast_empty s.participantEventsCache p hw]
    show (if errIs { tag := "ParticipantEvents", kind := .empty, key := p }
        .empty then _ else _) = _
    rw [if_pos (show errIs (StoreErr.mk "ParticipantEvents" StoreErrKind.empty p)
      StoreErrKind.empty = true from rfl), hr]
  · unfold InmemStore.KnownEvents
    have hknown : alookup s.participantEventsCache.Known peer.id = some (-1) := by
      unfold ParticipantEventsCache.Known
      rw [hpp, alookup_map_of_nodup s.participants Peer.id
        (fun q => s.participantEventsCache.lastIndexOf q.pubKeyHex) peer hnd hmem,
        hlast]
    exact foldl_knownStep_mem s.participants s.rootsByParticipant _ peer root
      hnd hmem hknown hr
  · unfold InmemStore.LastEventFrom
    rw [pec_getLast_empty s.participantEventsCache p hw]
    show (if errIs { tag := "ParticipantEvents", kind := .empty, key := p }
        .empty then _ else _) = _
    rw [if_pos (show errIs (StoreErr.mk "ParticipantEvents" StoreErrKind.empty p)
      StoreErrKind.empty = true from rfl), hr]

/-- C6 witness: root fallback, `KnownEvents`, and the no-root error on
a concrete fresh store. -/
theorem lastEventFrom_knownEvents_root_fallback_witness :
    store0.LastEventFrom "pA" = .ok ((NewBaseRoot 1).selfParent.hash, true)
    ∧ alookup store0.KnownEvents 1 = some (NewBaseRoot 1).selfParent.index
    ∧ store0.LastEventFrom "zz"
        = .error { tag := "InmemStore.Roots", kind := .noRoot, key := "zz" } :=
  ⟨lastEventFrom_knownEvents_root_fallback.1 store0 "pA" (NewBaseRoot 1)
      (by decide) (by decide),
   lastEventFrom_knownEvents_root_fallback.2.1 store0 peerA (NewBaseRoot 1)
      rfl (by decide) (by decide) (by decide) (by decide),
   lastEventFrom_knownEvents_root_fallback.2.2 store0 "zz" (by decide) (by decide)⟩

/-- C7: for an index missing from a participant's window (`GetItem`
fails), `ParticipantEvent` falls back to the participant's root: it
returns the root's self-parent hash with no error exactly when the
index equals the root's self-parent index, and otherwise surfaces the
lookup error; on a fresh store `ParticipantEvent(p, −1)` returns the
base root's self-parent hash; without a root it returns a no-root
error. -/
theorem participantEvent_root_fallback :
    (∀ (s : InmemStore) (p : String) (i : Int) (root : Root) (e0 : StoreErr),
      s.participantEventsCache.GetItem p i = .error e0 →
      alookup s.rootsByParticipant p = some root →
      (root.selfParent.index = i → s.ParticipantEvent p i = .ok root.selfParent.hash)
      ∧ (root.selfParent.index ≠ i → s.ParticipantEvent p i = .error e0))
    ∧ (∀ (peers : List Peer) (cs : Nat) (peer : Peer),
      (peers.map Peer.pubKeyHex).Nodup → peer ∈ peers →
      (NewInmemStore peers cs).ParticipantEvent peer.pubKeyHex (-1)
        = .ok (NewBaseRoot peer.id).selfParent.hash)
    ∧ (∀ (s : InmemStore) (p : String) (i : Int) (e0 : StoreErr),
      s.participantEventsCache.GetItem p i = .error e0 →
      alookup s.rootsByParticipant p = none →
      s.ParticipantEvent p i
        = .error { tag := "InmemStore.Roots", kind := .noRoot, key := p }) := by
  have hbase : ∀ (s : InmemStore) (p : String) (i : Int) (e0 : StoreErr),
      s.participantEventsCache.GetItem p i = .error e0 →
      s.ParticipantEvent p i
        = (match alookup s.rootsByParticipant p with
           | none => .error { tag := "InmemStore.Roots", kind := .noRoot, key := p }
           | some root =>
               if root.selfParent.index = i then .ok root.selfParent.hash
               else .error e0) := by
    intro s p i e0 hitem
    unfold InmemStore.ParticipantEvent
    rw [hitem]
  refine ⟨fun s p i root e0 hitem hr => ?_, fun peers cs peer hnd hmem => ?_,
    fun s p i e0 hitem hr => ?_⟩
  · rw [hbase s p i e0 hitem, hr]
    constructor
    · intro heq
      show (if root.selfParent.index = i then Except.ok root.selfParent.hash
            else Except.error e0) = Except.ok root.selfParent.hash
      rw [if_pos heq]
    · intro hne
      show (if root.selfParent.index = i then Except.ok root.selfParent.hash
            else Except.error e0) = Except.error e0
      rw [if_neg hne]
  · have hitem : (NewInmemStore peers cs).participantEventsCache.GetItem
        peer.pubKeyHex (-1)
        = .error { tag := "ParticipantEvents", kind := .keyNotFound,
                   key := toString (-1 : Int) } := by
      unfold ParticipantEventsCache.GetItem
      rw [show alookup (NewInmemStore peers cs).participantEventsCache.rim
            peer.pubKeyHex = some PRecord.empty from
          alookup_map_of_nodup peers Peer.pubKeyHex (fun _ => PRecord.empty)
            peer hnd hmem]
      rfl
    have hr : alookup (NewInmemStore peers cs).rootsByParticipant peer.pubKeyHex
        = some (NewBaseRoot peer.id) :=
      alookup_map_of_nodup peers Peer.pubKeyHex (fun q => NewBaseRoot q.id)
        peer hnd hmem
    rw [hbase _ _ _ _ hitem, hr]
    show (if (NewBaseRoot peer.id).selfParent.index = -1 then
          Except.ok (NewBaseRoot peer.id).selfParent.hash
          else Except.error (StoreErr.mk "ParticipantEvents"
            StoreErrKind.keyNotFound (toString (-1 : Int))))
        = Except.ok (NewBaseRoot peer.id).selfParent.hash
    rw [if_pos (show (NewBaseRoot peer.id).selfParent.index = -1 from rfl)]
  · rw [hbase s p i e0 hitem, hr]

/-- C7 witness: the root fallback of `ParticipantEvent` evaluated on a
concrete fresh store, at the matching index −1, at a non-matching
index 3, and for an unknown participant. -/
theorem participantEvent_root_fallback_witness :
    ((NewBaseRoot 1).selfParent.index = -1 →
        store0.ParticipantEvent "pA" (-1) = .ok (NewBaseRoot 1).selfParent.hash)
    ∧ ((NewBaseRoot 1).selfParent.index ≠ 3 →
        store0.ParticipantEvent "pA" 3
          = .error { tag := "ParticipantEvents", kind := .keyNotFound,
                     key := toString (3 : Int) })
    ∧ store0.ParticipantEvent "zz" 0
        = .error { tag := "InmemStore.Roots", kind := .noRoot, key := "zz" } :=
  ⟨(participantEvent_root_fallback.1 store0 "pA" (-1) (NewBaseRoot 1)
      { tag := "ParticipantEvents", kind := .keyNotFound,
        key := toString (-1 : Int) } rfl (by decide)).1,
   (participantEvent_root_fallback.1 store0 "pA" 3 (NewBaseRoot 1)
      { tag := "ParticipantEvents", kind := .keyNotFound,
        key := toString (3 : Int) } rfl (by decide)).2,
   participantEvent_root_fallback.2.2 store0 "zz" 0
      { tag := "ParticipantEvents", kind := .keyNotFound, key := "zz" }
      rfl (by decide)⟩

/-- Auxiliary: a successful `SetEvent` never changes the consensus
total count. -/
theorem setEvent_ok_tot (s s1 : InmemStore) (e : Event)
    (h1 : s.SetEvent e = .ok s1) :
    s1.totConsensusEvents = s.totConsensusEvents := by
  unfold InmemStore.SetEvent at h1
  split at h1
  · cases h1
    rfl
  · split at h1
    · split at h1
      · cases h1
      · cases h1
        rfl
    · cases h1

/-- Auxiliary: every non-`Reset` operation leaves the consensus count
unchanged except `AddConsensusEvent`, which adds exactly one. -/
theorem applyOp_count (s : InmemStore) (op : StoreOp) (h : op.isReset = false) :
    (applyOp s op).ConsensusEventsCount
      = s.ConsensusEventsCount + (if op.isAddConsensusEvent then 1 else 0) := by
  cases op with
  | setEvent e =>
      show (match s.SetEvent e with | .ok s' => s' | .error _ => s).totConsensusEvents
        = s.totConsensusEvents + _
      cases hrun : s.SetEvent e with
      | ok s' =>
          rw [setEvent_ok_tot s s' e hrun]
          simp [StoreOp.isAddConsensusEvent]
      | error err => simp [StoreOp.isAddConsensusEvent]
  | addConsensusEvent e => simp [applyOp, InmemStore.AddConsensusEvent,
      InmemStore.ConsensusEventsCount, StoreOp.isAddConsensusEvent]
  | setRoundCreated r rc => simp [applyOp, InmemStore.SetRoundCreated,
      InmemStore.ConsensusEventsCount, StoreOp.isAddConsensusEvent]
  | setRoundReceived r rr => simp [applyOp, InmemStore.SetRoundReceived,
      InmemStore.ConsensusEventsCount, StoreOp.isAddConsensusEvent]
  | setBlock b => simp [applyOp, InmemStore.SetBlock,
      InmemStore.ConsensusEventsCount, StoreOp.isAddConsensusEvent]
  | setFrame f => simp [applyOp, InmemStore.SetFrame,
      InmemStore.ConsensusEventsCount, StoreOp.isAddConsensusEvent]
  | reset roots => simp [StoreOp.isReset] at h

/-- C3: without an intervening `Reset`, `ConsensusEventsCount()` never
decreases across any sequence of mutating store operations, and the
only operation that increases it is `AddConsensusEvent`, by exactly
one. -/
theorem consensusEventsCount_monotone :
    (∀ (s : InmemStore) (op : StoreOp), op.isReset = false →
      (applyOp s op).ConsensusEventsCount
        = s.ConsensusEventsCount + (if op.isAddConsensusEvent then 1 else 0))
    ∧ (∀ (s : InmemStore) (ops : List StoreOp),
      (∀ op ∈ ops, op.isReset = false) →
      s.ConsensusEventsCount ≤ (ops.foldl applyOp s).ConsensusEventsCount) := by
  constructor
  · exact applyOp_count
  · intro s ops h
    induction ops generalizing s with
    | nil => exact le_refl _
    | cons op t ih =>
        have h1 := applyOp_count s op (h op (List.mem_cons_self op t))
        have h2 := ih (applyOp s op) (fun o ho => h o (List.mem_cons_of_mem op ho))
        rw [List.foldl_cons]
        refine le_trans ?_ h2
        rw [h1]
        split <;> omega

/-- C3 witness: the count equation and the monotone run evaluated for
concrete operations on a concrete store. -/
theorem consensusEventsCount_monotone_witness :
    (applyOp store0 (StoreOp.setBlock blk1)).ConsensusEventsCount
      = store0.ConsensusEventsCount
        + (if (StoreOp.setBlock blk1).isAddConsensusEvent then 1 else 0)
    ∧ store0.ConsensusEventsCount
      ≤ ([StoreOp.addConsensusEvent ev1, StoreOp.setBlock blk1].foldl
          applyOp store0).ConsensusEventsCount :=
  ⟨consensusEventsCount_monotone.1 store0 (StoreOp.setBlock blk1) rfl,
   consensusEventsCount_monotone.2 store0
     [StoreOp.addConsensusEvent ev1, StoreOp.setBlock blk1] (by decide)⟩

end Lachesis
